import Mathlib

/-!
Shallow embedding of the Taylor-series propagator
`include/keplerian_toolbox/core_functions/propagate_taylor_J2.hpp`.

The C++ code works on `double`; here the arithmetic is idealised over `ℝ`.
A state is a flat 7-component vector (position 0..2, velocity 3..5, mass 6),
represented as a function `ℕ → ℝ` read only at indices 0..6.  The Taylor
coefficient table `x` and the 34-slot auxiliary table `u` are lists of such
rows, one row per differentiation order, grown order by order exactly as the
source's `while (n < order)` loop does.
-/

namespace KepToolbox

/-- A 7-component state row (or a 34-slot auxiliary row): a flat real vector. -/
abbrev Row : Type := ℕ → ℝ

/-- The all-zero row: the `dumb`/`dumb2` zero initialisation of the tables. -/
def zeroRow : Row := fun _ => 0

/-- The constant control parameters of one propagation call:
thrust vector, gravitational parameter `mu`, effective exhaust velocity
`veff` and the oblateness coefficient `J2RG2` (J2 times radius squared). -/
structure Params where
  thrust : ℕ → ℝ
  mu : ℝ
  veff : ℝ
  J2RG2 : ℝ

/-- Magnitude of the constant thrust vector: the source's
`sqrtT = sqrt(T[0]^2 + T[1]^2 + T[2]^2)`. -/
noncomputable def sqrtT (p : Params) : ℝ :=
  Real.sqrt (p.thrust 0 * p.thrust 0 + p.thrust 1 * p.thrust 1 + p.thrust 2 * p.thrust 2)

mutual

/-- Slot `k` of the auxiliary row currently being generated.  The current
order `n` is the number of completed auxiliary rows (`us.length`); `xs`
holds the state rows `x[0..n]`.  Each arm transcribes the corresponding
`u[n][k] = ...` assignment (or `+=` convolution) of the source's
coefficient-generator loop; `alpha = -1.5` and `beta = -1`. -/
noncomputable def uSlot (p : Params) (xs us : List Row) : ℕ → ℝ
  | 0 => (xs.getD us.length zeroRow) 0
  | 1 => (xs.getD us.length zeroRow) 1
  | 2 => (xs.getD us.length zeroRow) 2
  | 3 => (xs.getD us.length zeroRow) 3
  | 4 => (xs.getD us.length zeroRow) 4
  | 5 => (xs.getD us.length zeroRow) 5
  | 6 => (xs.getD us.length zeroRow) 6
  | 7 => ∑ j in Finset.range (us.length + 1), uAt p xs us j 0 * uAt p xs us (us.length - j) 0
  | 8 => ∑ j in Finset.range (us.length + 1), uAt p xs us j 1 * uAt p xs us (us.length - j) 1
  | 9 => ∑ j in Finset.range (us.length + 1), uAt p xs us j 2 * uAt p xs us (us.length - j) 2
  | 10 => uSlot p xs us 7 + uSlot p xs us 8
  | 11 => uSlot p xs us 10 + uSlot p xs us 9
  | 12 =>
      if us.length = 0 then
        Real.sqrt (1 / (uAt p xs us 0 11 * uAt p xs us 0 11 * uAt p xs us 0 11))
      else
        (∑ j in Finset.range us.length,
            ((-1.5) * (us.length : ℝ) - (j : ℝ) * ((-1.5) + 1)) *
              uAt p xs us (us.length - j) 11 * (us.getD j zeroRow) 12) /
          ((us.length : ℝ) * uAt p xs us 0 11)
  | 13 => -(uSlot p xs us 12) * p.mu
  | 14 => ∑ j in Finset.range (us.length + 1), uAt p xs us j 0 * uAt p xs us (us.length - j) 13
  | 15 => ∑ j in Finset.range (us.length + 1), uAt p xs us j 1 * uAt p xs us (us.length - j) 13
  | 16 => ∑ j in Finset.range (us.length + 1), uAt p xs us j 2 * uAt p xs us (us.length - j) 13
  | 17 =>
      if us.length = 0 then
        1 / uAt p xs us 0 6
      else
        (∑ j in Finset.range us.length,
            ((-1) * (us.length : ℝ) - (j : ℝ) * ((-1) + 1)) *
              uAt p xs us (us.length - j) 6 * (us.getD j zeroRow) 17) /
          ((us.length : ℝ) * uAt p xs us 0 6)
  | 18 => if us.length = 0 then 1 else 0
  | 19 =>
      if us.length = 0 then
        1 / uAt p xs us 0 11
      else
        (∑ j in Finset.range us.length,
            ((-1) * (us.length : ℝ) - (j : ℝ) * ((-1) + 1)) *
              uAt p xs us (us.length - j) 11 * (us.getD j zeroRow) 19) /
          ((us.length : ℝ) * uAt p xs us 0 11)
  | 20 => 3 / 2 * p.J2RG2 * uSlot p xs us 19
  | 21 => ∑ j in Finset.range (us.length + 1), uAt p xs us j 9 * uAt p xs us (us.length - j) 19
  | 22 => uSlot p xs us 18 - 5 * uSlot p xs us 21
  | 23 => ∑ j in Finset.range (us.length + 1), uAt p xs us j 20 * uAt p xs us (us.length - j) 22
  | 24 => 3 * uSlot p xs us 18 - 5 * uSlot p xs us 21
  | 25 => ∑ j in Finset.range (us.length + 1), uAt p xs us j 20 * uAt p xs us (us.length - j) 24
  | 26 => uSlot p xs us 18 + uSlot p xs us 23
  | 27 => uSlot p xs us 18 + uSlot p xs us 25
  | 28 => ∑ j in Finset.range (us.length + 1), uAt p xs us j 14 * uAt p xs us (us.length - j) 26
  | 29 => ∑ j in Finset.range (us.length + 1), uAt p xs us j 15 * uAt p xs us (us.length - j) 26
  | 30 => ∑ j in Finset.range (us.length + 1), uAt p xs us j 16 * uAt p xs us (us.length - j) 27
  | 31 => uSlot p xs us 28 + uSlot p xs us 17 * p.thrust 0
  | 32 => uSlot p xs us 29 + uSlot p xs us 17 * p.thrust 1
  | 33 => uSlot p xs us 30 + uSlot p xs us 17 * p.thrust 2
  | _ => 0
termination_by k => 2 * k
decreasing_by all_goals omega

/-- Read `u[j][k]`: the row currently being generated when `j` is the
current order, a previously completed row otherwise. -/
noncomputable def uAt (p : Params) (xs us : List Row) (j k : ℕ) : ℝ :=
  if j = us.length then uSlot p xs us k else (us.getD j zeroRow) k
termination_by 2 * k + 1
decreasing_by all_goals omega

end

/-- The freshly completed auxiliary row `u[n]` (with `n = t.2.length`). -/
noncomputable def uRowNew (p : Params) (t : List Row × List Row) : Row :=
  fun k => uSlot p t.1 t.2 k

/-- The next state row `x[n+1]`, from the just-completed auxiliary row:
`x[n+1][i] = u[n][3+i]/(n+1)` for positions, `x[n+1][3+i] = u[n][31+i]/(n+1)`
for velocities, and the mass coefficient `-sqrtT/veff` at `n = 0`, `0` above. -/
noncomputable def xNextRow (p : Params) (t : List Row × List Row) : Row :=
  fun i =>
    if i = 0 then 1 / ((t.2.length : ℝ) + 1) * uRowNew p t 3
    else if i = 1 then 1 / ((t.2.length : ℝ) + 1) * uRowNew p t 4
    else if i = 2 then 1 / ((t.2.length : ℝ) + 1) * uRowNew p t 5
    else if i = 3 then 1 / ((t.2.length : ℝ) + 1) * uRowNew p t 31
    else if i = 4 then 1 / ((t.2.length : ℝ) + 1) * uRowNew p t 32
    else if i = 5 then 1 / ((t.2.length : ℝ) + 1) * uRowNew p t 33
    else if i = 6 then (if t.2.length = 0 then -(sqrtT p) / p.veff else 0)
    else 0

/-- One pass of the generator's `while (n < order)` loop body: complete the
auxiliary row of the current order and append the next state row. -/
noncomputable def genStep (p : Params) (t : List Row × List Row) : List Row × List Row :=
  (t.1 ++ [xNextRow p t], t.2 ++ [uRowNew p t])

/-- The Taylor Coefficient Generator: starting from `x = [state]`, `u = []`,
run the loop body `order` times, producing `x[0..order]` and `u[0..order-1]`. -/
noncomputable def genTables (p : Params) (s : Row) (order : ℕ) : List Row × List Row :=
  (genStep p)^[order] ([s], [])

/-- The infinity norm of a 7-component row, with the source's exact
left-to-right `max` chain. -/
noncomputable def infNorm7 (s : Row) : ℝ :=
  max (max (max (max (max (max |s 0| |s 1|) |s 2|) |s 3|) |s 4|) |s 5|) |s 6|

/-- Jorba's convergence-radius estimate `rho_m`, from the infinity norms of
the two highest-order coefficient rows. -/
noncomputable def rho_m (p : Params) (s : Row) (ord : ℕ) (xm ea er : ℝ) : ℝ :=
  let xs := (genTables p s ord).1
  let xm_n := infNorm7 (xs.getD ord zeroRow)
  let xm_n1 := infNorm7 (xs.getD (ord - 1) zeroRow)
  if er * xm < ea then
    min ((1 / xm_n) ^ ((1 : ℝ) / (ord : ℝ))) ((1 / xm_n1) ^ ((1 : ℝ) / ((ord : ℝ) - 1)))
  else
    min ((xm / xm_n) ^ ((1 : ℝ) / (ord : ℝ))) ((xm / xm_n1) ^ ((1 : ℝ) / ((ord : ℝ) - 1)))

/-- One Taylor step (`propagate_taylor_J2_step`): generate the tables,
pick the step from `rho_m / e^2` clamped in sign and magnitude to the
remaining duration `h`, sum the truncated series onto the state, and
return the new state together with the step actually taken. -/
noncomputable def propagate_taylor_J2_step (p : Params) (s : Row) (h : ℝ) (ord : ℕ)
    (xm ea er : ℝ) : Row × ℝ :=
  let xs := (genTables p s ord).1
  let step0 := rho_m p s ord xm ea er / (Real.exp 1 * Real.exp 1)
  let step1 := if h < 0 then -step0 else step0
  let step2 := if |step1| > |h| then h else step1
  (fun i =>
      if i < 6 then s i + ∑ j in Finset.Icc 1 ord, (xs.getD j zeroRow) i * step2 ^ j
      else if i = 6 then s 6 + (xs.getD 1 zeroRow) 6 * step2
      else s i,
    step2)

/-- The two failure conditions of the adaptive step controller. -/
inductive PropErr : Type where
  | orderExceeded : PropErr
  | iterLimit : PropErr

/-- The per-iteration target truncation error `eps_m` (Jorba Eq. 7):
the absolute tolerance when `eps_r * xm < eps_a`, else the relative one. -/
noncomputable def iterEps (ea er xm : ℝ) : ℝ :=
  if er * xm < ea then ea else er

/-- The per-iteration polynomial order `ceil(-0.5 * log eps_m + 1)`. -/
noncomputable def iterOrder (ea er xm : ℝ) : ℤ :=
  ⌈-0.5 * Real.log (iterEps ea er xm) + 1⌉

/-- The controller loop of `propagate_taylor_J2`, with the remaining
iteration budget as fuel.  Exhausted fuel is the `j > max_iter - 1` throw;
an order above `maxOrd` is the immediate `Polynomial order is too high`
throw; otherwise one Taylor step is taken and the loop stops exactly when
the step taken covers the remaining duration in magnitude. -/
noncomputable def propLoop (p : Params) (ea er : ℝ) (maxOrd : ℤ) :
    ℕ → Row → ℝ → (Row × ℝ) ⊕ (Row × PropErr)
  | 0, s, _ => Sum.inr (s, PropErr.iterLimit)
  | fuel + 1, s, step =>
    if iterOrder ea er (infNorm7 s) > maxOrd then Sum.inr (s, PropErr.orderExceeded)
    else
      let pr := propagate_taylor_J2_step p s step (iterOrder ea er (infNorm7 s)).toNat
        (infNorm7 s) ea er
      if |step| ≤ |pr.2| then Sum.inl pr
      else propLoop p ea er maxOrd fuel pr.1 (step - pr.2)

/-- The propagation entry point `propagate_taylor_J2`: tolerances are
`10^log10tolerance` and `10^log10rtolerance`; the caller gets back the
mutated state and the failure condition, if any.  The last step length
carried by the loop's success value is dropped here, as the C++ function
returns `void` and takes the duration by const reference. -/
noncomputable def propagate_taylor_J2 (p : Params) (s : Row) (t0 : ℝ)
    (log10tolerance log10rtolerance max_iter max_order : ℤ) : Row × Option PropErr :=
  match propLoop p ((10 : ℝ) ^ log10tolerance) ((10 : ℝ) ^ log10rtolerance) max_order
      max_iter.toNat s t0 with
  | Sum.inl pr => (pr.1, none)
  | Sum.inr (sf, e) => (sf, some e)

/-! ### Concrete instances used to exercise the definitions -/

/-- A unit thrust along the first axis, `mu = 1`, `veff = 1`, `J2RG2 = 0`. -/
def pW : Params := ⟨fun i => if i = 0 then 1 else 0, 1, 1, 0⟩

/-- Zero thrust, `mu = 1`, `veff = 1`, `J2RG2 = 0`. -/
def pW0 : Params := ⟨fun _ => 0, 1, 1, 0⟩

/-- A state on the unit circle with unit mass: position `(1,0,0)`,
velocity `(0,1,0)`, mass `1`. -/
def sW : Row := fun i => if i = 0 then 1 else if i = 4 then 1 else if i = 6 then 1 else 0

/-- The order-1 Taylor row of the zero state under unit thrust: only the
mass-flow coefficient `-sqrtT/veff = -1` is nonzero. -/
def mRow : Row := fun i => if i = 6 then -1 else 0

/-! ### Structural lemmas about the generated coefficient tables -/

theorem infNorm7_nonneg (s : Row) : 0 ≤ infNorm7 s :=
  le_trans (abs_nonneg (s 6)) (le_max_right _ _)

theorem genTables_succ (p : Params) (s : Row) (N : ℕ) :
    genTables p s (N + 1) = genStep p (genTables p s N) :=
  Function.iterate_succ_apply' (genStep p) N ([s], [])

theorem genTables_fst_length (p : Params) (s : Row) (N : ℕ) :
    (genTables p s N).1.length = N + 1 := by
  induction N with
  | zero => rfl
  | succ N ih => rw [genTables_succ, genStep]; simp [ih]

theorem genTables_snd_length (p : Params) (s : Row) (N : ℕ) :
    (genTables p s N).2.length = N := by
  induction N with
  | zero => rfl
  | succ N ih => rw [genTables_succ, genStep]; simp [ih]

theorem getD_append_lt (l l2 : List Row) (n : ℕ) (h : n < l.length) (d : Row) :
    (l ++ l2).getD n d = l.getD n d := by
  simp [List.getD_eq_getElem?_getD, List.getElem?_append, h]

theorem getD_append_last (l : List Row) (a d : Row) (n : ℕ) (h : l.length = n) :
    (l ++ [a]).getD n d = a := by
  subst h
  simp [List.getD_eq_getElem?_getD, List.getElem?_append_right (le_refl l.length)]

/-- Entries already generated never change as the target order grows:
the tables for a smaller target order are a prefix of the larger ones. -/
theorem genTables_take (p : Params) (s : Row) (N M : ℕ) (h : N ≤ M) :
    (genTables p s M).1.take (N + 1) = (genTables p s N).1 ∧
      (genTables p s M).2.take N = (genTables p s N).2 := by
  induction M with
  | zero =>
    have hN : N = 0 := Nat.le_zero.mp h
    subst hN
    exact ⟨rfl, rfl⟩
  | succ M ih =>
    rcases Nat.lt_or_ge N (M + 1) with hlt | hge
    · have hNM : N ≤ M := Nat.lt_succ_iff.mp hlt
      have hx := (ih hNM).1
      have hu := (ih hNM).2
      rw [genTables_succ, genStep]
      constructor
      · rw [List.take_append_of_le_length (by rw [genTables_fst_length]; omega), hx]
      · rw [List.take_append_of_le_length (by rw [genTables_snd_length]; omega), hu]
    · have hN : N = M + 1 := le_antisymm h hge
      subst hN
      exact ⟨List.take_of_length_le (le_of_eq (genTables_fst_length p s (M + 1))),
        List.take_of_length_le (le_of_eq (genTables_snd_length p s (M + 1)))⟩

theorem genTables_getD_fst_stable (p : Params) (s : Row) {k N M : ℕ}
    (hk : k ≤ N) (h : N ≤ M) :
    (genTables p s M).1.getD k zeroRow = (genTables p s N).1.getD k zeroRow := by
  rw [← (genTables_take p s N M h).1]
  have hk2 : k < ((genTables p s M).1.take (N + 1)).length := by
    rw [List.length_take, genTables_fst_length]; omega
  simp only [List.getD_eq_getElem?_getD, List.getElem?_take]
  rw [if_pos (by omega)]

/-- The state row of order `n + 1` is the one computed from the tables of
orders `≤ n`, and likewise the auxiliary row of order `n`. -/
theorem genTables_row (p : Params) (s : Row) {n N : ℕ} (h : n < N) :
    (genTables p s N).1.getD (n + 1) zeroRow = xNextRow p (genTables p s n) ∧
      (genTables p s N).2.getD n zeroRow = uRowNew p (genTables p s n) := by
  induction N with
  | zero => omega
  | succ N ih =>
    rcases Nat.lt_or_ge n N with hlt | hge
    · have hx := (ih hlt).1
      have hu := (ih hlt).2
      rw [genTables_succ, genStep]
      constructor
      · rw [getD_append_lt _ _ _ (by rw [genTables_fst_length]; omega), hx]
      · rw [getD_append_lt _ _ _ (by rw [genTables_snd_length]; omega), hu]
    · have hn : n = N := by omega
      subst hn
      rw [genTables_succ, genStep]
      exact ⟨getD_append_last _ _ _ _ (genTables_fst_length p s n),
        getD_append_last _ _ _ _ (genTables_snd_length p s n)⟩

/-- The mass Taylor coefficients: `-sqrtT/veff` at order 1, `0` above. -/
theorem genTables_mass_coeff (p : Params) (s : Row) {k N : ℕ}
    (h1 : 1 ≤ k) (h2 : k ≤ N) :
    ((genTables p s N).1.getD k zeroRow) 6 =
      if k = 1 then -(sqrtT p) / p.veff else 0 := by
  obtain ⟨n, rfl⟩ : ∃ n, k = n + 1 := ⟨k - 1, by omega⟩
  rw [(genTables_row p s (show n < N by omega)).1, xNextRow]
  simp only [genTables_snd_length]
  norm_num

/-! ### Numeric bounds on `log 10` and the selected order -/

theorem log_ten_lt : Real.log 10 < 2.3105 := by
  have h1 : Real.log 1000 < Real.log 1024 :=
    Real.log_lt_log (by norm_num) (by norm_num)
  have h2 : Real.log 1000 = 3 * Real.log 10 := by
    rw [show (1000 : ℝ) = 10 ^ (3 : ℕ) by norm_num, Real.log_pow]
    push_cast; ring
  have h3 : Real.log 1024 = 10 * Real.log 2 := by
    rw [show (1024 : ℝ) = 2 ^ (10 : ℕ) by norm_num, Real.log_pow]
    push_cast; ring
  nlinarith [Real.log_two_lt_d9]

theorem log_ten_gt : 2.2873 < Real.log 10 := by
  have h1 : Real.log 8589934592 < Real.log 10000000000 :=
    Real.log_lt_log (by norm_num) (by norm_num)
  have h2 : Real.log 8589934592 = 33 * Real.log 2 := by
    rw [show (8589934592 : ℝ) = 2 ^ (33 : ℕ) by norm_num, Real.log_pow]
    push_cast; ring
  have h3 : Real.log 10000000000 = 10 * Real.log 10 := by
    rw [show (10000000000 : ℝ) = 10 ^ (10 : ℕ) by norm_num, Real.log_pow]
    push_cast; ring
  nlinarith [Real.log_two_gt_d9]

theorem log_zpow_ten (z : ℤ) : Real.log ((10 : ℝ) ^ z) = z * Real.log 10 :=
  Real.log_zpow 10 z

/-- With both default tolerance exponents `-10`, the selected order is 13,
whatever the state norm. -/
theorem iterOrder_default (xm : ℝ) :
    iterOrder ((10 : ℝ) ^ (-10 : ℤ)) ((10 : ℝ) ^ (-10 : ℤ)) xm = 13 := by
  have heps : iterEps ((10 : ℝ) ^ (-10 : ℤ)) ((10 : ℝ) ^ (-10 : ℤ)) xm
      = (10 : ℝ) ^ (-10 : ℤ) := by
    rw [iterEps, ite_self]
  rw [iterOrder, heps, log_zpow_ten]
  rw [Int.ceil_eq_iff]
  have h1 := log_ten_lt
  have h2 := log_ten_gt
  constructor
  · push_cast; nlinarith
  · push_cast; nlinarith

/-- Tolerances at most `1` force a positive selected order. -/
theorem iterOrder_pos {ea er : ℝ} (hA0 : 0 < ea) (hA1 : ea ≤ 1)
    (hR0 : 0 < er) (hR1 : er ≤ 1) (xm : ℝ) : 1 ≤ iterOrder ea er xm := by
  have hlog : Real.log (iterEps ea er xm) ≤ 0 := by
    rw [iterEps]
    split
    · exact Real.log_nonpos hA0.le hA1
    · exact Real.log_nonpos hR0.le hR1
  have h1 : (1 : ℝ) ≤ -0.5 * Real.log (iterEps ea er xm) + 1 := by nlinarith
  calc (1 : ℤ) = ⌈(1 : ℝ)⌉ := by norm_num
    _ ≤ iterOrder ea er xm := Int.ceil_mono h1

/-! ### Lemmas about one Taylor step -/

theorem step_snd (p : Params) (s : Row) (h : ℝ) (ord : ℕ) (xm ea er : ℝ) :
    (propagate_taylor_J2_step p s h ord xm ea er).2 =
      if |if h < 0 then -(rho_m p s ord xm ea er / (Real.exp 1 * Real.exp 1))
            else rho_m p s ord xm ea er / (Real.exp 1 * Real.exp 1)| > |h|
      then h
      else if h < 0 then -(rho_m p s ord xm ea er / (Real.exp 1 * Real.exp 1))
        else rho_m p s ord xm ea er / (Real.exp 1 * Real.exp 1) := rfl

theorem step_fst (p : Params) (s : Row) (h : ℝ) (ord : ℕ) (xm ea er : ℝ) :
    (propagate_taylor_J2_step p s h ord xm ea er).1 = fun i =>
      if i < 6 then
        s i + ∑ j in Finset.Icc 1 ord, ((genTables p s ord).1.getD j zeroRow) i *
          ((propagate_taylor_J2_step p s h ord xm ea er).2) ^ j
      else if i = 6 then
        s 6 + ((genTables p s ord).1.getD 1 zeroRow) 6 *
          (propagate_taylor_J2_step p s h ord xm ea er).2
      else s i := rfl

theorem clamp_abs_le (c h : ℝ) :
    |if |if h < 0 then -c else c| > |h| then h else if h < 0 then -c else c| ≤ |h| := by
  by_cases h1 : |if h < 0 then -c else c| > |h|
  · rw [if_pos h1]
  · rw [if_neg h1]
    exact le_of_not_lt h1

theorem clamp_sign (c h : ℝ) (hc : 0 ≤ c) :
    0 ≤ (if |if h < 0 then -c else c| > |h| then h else if h < 0 then -c else c) * h := by
  by_cases hh : h < 0
  · rw [if_pos hh]
    by_cases h1 : |(-c)| > |h|
    · rw [if_pos h1]
      exact mul_self_nonneg h
    · rw [if_neg h1]
      nlinarith
  · rw [if_neg hh]
    by_cases h1 : |c| > |h|
    · rw [if_pos h1]
      exact mul_self_nonneg h
    · rw [if_neg h1]
      exact mul_nonneg hc (not_lt.mp hh)

theorem clamp_consume (c h : ℝ) (hc : 0 ≤ c)
    (hge : |h| ≤ |if |if h < 0 then -c else c| > |h| then h else if h < 0 then -c else c|) :
    (if |if h < 0 then -c else c| > |h| then h else if h < 0 then -c else c) = h := by
  by_cases h1 : |if h < 0 then -c else c| > |h|
  · rw [if_pos h1]
  · rw [if_neg h1] at hge ⊢
    have heq : |if h < 0 then -c else c| = |h| := le_antisymm (not_lt.mp h1) hge
    by_cases hh : h < 0
    · rw [if_pos hh] at heq ⊢
      rw [abs_neg, abs_of_nonneg hc, abs_of_neg hh] at heq
      linarith
    · rw [if_neg hh] at heq ⊢
      rw [abs_of_nonneg hc, abs_of_nonneg (not_lt.mp hh)] at heq
      exact heq

theorem clamp_zero (c : ℝ) :
    (if |if (0:ℝ) < 0 then -c else c| > |(0:ℝ)| then (0:ℝ) else if (0:ℝ) < 0 then -c else c)
      = 0 := by
  rw [if_neg (lt_irrefl (0:ℝ))]
  by_cases h1 : |c| > |(0 : ℝ)|
  · rw [if_pos h1]
  · rw [if_neg h1]
    rw [abs_zero] at h1
    exact abs_nonpos_iff.mp (not_lt.mp h1)

/-- The magnitude of the step taken never exceeds the remaining duration. -/
theorem step_abs_le (p : Params) (s : Row) (h : ℝ) (ord : ℕ) (xm ea er : ℝ) :
    |(propagate_taylor_J2_step p s h ord xm ea er).2| ≤ |h| := by
  rw [step_snd]
  exact clamp_abs_le _ h

theorem rho_m_nonneg (p : Params) (s : Row) (ord : ℕ) {xm : ℝ} (ea er : ℝ)
    (hxm : 0 ≤ xm) : 0 ≤ rho_m p s ord xm ea er := by
  rw [rho_m]
  split
  · exact le_min (Real.rpow_nonneg (one_div_nonneg.mpr (infNorm7_nonneg _)) _)
      (Real.rpow_nonneg (one_div_nonneg.mpr (infNorm7_nonneg _)) _)
  · exact le_min (Real.rpow_nonneg (div_nonneg hxm (infNorm7_nonneg _)) _)
      (Real.rpow_nonneg (div_nonneg hxm (infNorm7_nonneg _)) _)

/-- The step taken points in the direction of the remaining duration. -/
theorem step_sign (p : Params) (s : Row) (h : ℝ) (ord : ℕ) {xm : ℝ} (ea er : ℝ)
    (hxm : 0 ≤ xm) : 0 ≤ (propagate_taylor_J2_step p s h ord xm ea er).2 * h := by
  have hc : 0 ≤ rho_m p s ord xm ea er / (Real.exp 1 * Real.exp 1) :=
    div_nonneg (rho_m_nonneg p s ord ea er hxm)
      (mul_nonneg (Real.exp_pos 1).le (Real.exp_pos 1).le)
  rw [step_snd]
  exact clamp_sign _ h hc

/-- When the loop's stop test holds, the step taken was exactly the whole
remaining duration. -/
theorem step_consume (p : Params) (s : Row) (h : ℝ) (ord : ℕ) {xm : ℝ} (ea er : ℝ)
    (hxm : 0 ≤ xm) (hge : |h| ≤ |(propagate_taylor_J2_step p s h ord xm ea er).2|) :
    (propagate_taylor_J2_step p s h ord xm ea er).2 = h := by
  have hc : 0 ≤ rho_m p s ord xm ea er / (Real.exp 1 * Real.exp 1) :=
    div_nonneg (rho_m_nonneg p s ord ea er hxm)
      (mul_nonneg (Real.exp_pos 1).le (Real.exp_pos 1).le)
  rw [step_snd] at hge ⊢
  exact clamp_consume _ h hc hge

/-- A zero remaining duration produces a zero step and leaves the state
exactly unchanged. -/
theorem step_zero (p : Params) (s : Row) (ord : ℕ) (xm ea er : ℝ) :
    propagate_taylor_J2_step p s 0 ord xm ea er = (s, 0) := by
  have hsnd : (propagate_taylor_J2_step p s 0 ord xm ea er).2 = 0 := by
    rw [step_snd]
    exact clamp_zero _
  have hfst : (propagate_taylor_J2_step p s 0 ord xm ea er).1 = s := by
    rw [step_fst, hsnd]
    funext i
    split
    · rw [Finset.sum_eq_zero, add_zero]
      intro j hj
      rw [zero_pow (by simp at hj; omega), mul_zero]
    · split
      · next hi => rw [mul_zero, add_zero, hi]
      · rfl
  calc propagate_taylor_J2_step p s 0 ord xm ea er
      = ((propagate_taylor_J2_step p s 0 ord xm ea er).1,
         (propagate_taylor_J2_step p s 0 ord xm ea er).2) := rfl
    _ = (s, 0) := by rw [hsnd, hfst]

/-- One step changes the mass by `-(sqrtT/veff)` times the step taken:
only the order-1 mass coefficient enters the mass update. -/
theorem step_mass (p : Params) (s : Row) (h : ℝ) {ord : ℕ} (xm ea er : ℝ)
    (hord : 1 ≤ ord) :
    (propagate_taylor_J2_step p s h ord xm ea er).1 6 =
      s 6 - sqrtT p / p.veff * (propagate_taylor_J2_step p s h ord xm ea er).2 := by
  have hm := genTables_mass_coeff p s (le_refl 1) hord
  rw [if_pos rfl] at hm
  rw [step_fst]
  simp only [List.getD_eq_getElem?_getD] at hm
  norm_num [hm]
  ring

/-! ### Lemmas about the controller loop -/

theorem propLoop_fuel_zero (p : Params) (ea er : ℝ) (maxOrd : ℤ) (s : Row) (t : ℝ) :
    propLoop p ea er maxOrd 0 s t = Sum.inr (s, PropErr.iterLimit) := rfl

theorem propLoop_succ (p : Params) (ea er : ℝ) (maxOrd : ℤ) (fuel : ℕ) (s : Row) (t : ℝ) :
    propLoop p ea er maxOrd (fuel + 1) s t =
      if iterOrder ea er (infNorm7 s) > maxOrd then Sum.inr (s, PropErr.orderExceeded)
      else
        if |t| ≤ |(propagate_taylor_J2_step p s t (iterOrder ea er (infNorm7 s)).toNat
              (infNorm7 s) ea er).2| then
          Sum.inl (propagate_taylor_J2_step p s t (iterOrder ea er (infNorm7 s)).toNat
            (infNorm7 s) ea er)
        else
          propLoop p ea er maxOrd fuel
            (propagate_taylor_J2_step p s t (iterOrder ea er (infNorm7 s)).toNat
              (infNorm7 s) ea er).1
            (t - (propagate_taylor_J2_step p s t (iterOrder ea er (infNorm7 s)).toNat
              (infNorm7 s) ea er).2) := rfl

/-- A zero remaining duration makes the next iteration stop at once with a
zero step and an unchanged state. -/
theorem propLoop_zero_duration (p : Params) (ea er : ℝ) (maxOrd : ℤ) (fuel : ℕ) (s : Row)
    (h : iterOrder ea er (infNorm7 s) ≤ maxOrd) :
    propLoop p ea er maxOrd (fuel + 1) s 0 = Sum.inl (s, 0) := by
  rw [propLoop_succ, if_neg (not_lt.mpr h), step_zero]
  norm_num

/-- Along any successful run with sane tolerances, the total mass change is
`-(sqrtT/veff)` times the total requested duration. -/
theorem propLoop_mass (p : Params) {ea er : ℝ} (hA0 : 0 < ea) (hA1 : ea ≤ 1)
    (hR0 : 0 < er) (hR1 : er ≤ 1) (maxOrd : ℤ) :
    ∀ (fuel : ℕ) (s : Row) (t : ℝ) (pr : Row × ℝ),
      propLoop p ea er maxOrd fuel s t = Sum.inl pr →
      pr.1 6 = s 6 - sqrtT p / p.veff * t := by
  intro fuel
  induction fuel with
  | zero =>
    intro s t pr h
    rw [propLoop_fuel_zero] at h
    simp at h
  | succ fuel ih =>
    intro s t pr h
    rw [propLoop_succ] at h
    by_cases horder : iterOrder ea er (infNorm7 s) > maxOrd
    · rw [if_pos horder] at h
      simp at h
    · rw [if_neg horder] at h
      have hordpos : 1 ≤ (iterOrder ea er (infNorm7 s)).toNat := by
        have := iterOrder_pos hA0 hA1 hR0 hR1 (infNorm7 s)
        omega
      by_cases hstop : |t| ≤ |(propagate_taylor_J2_step p s t
          (iterOrder ea er (infNorm7 s)).toNat (infNorm7 s) ea er).2|
      · rw [if_pos hstop] at h
        have hpr : propagate_taylor_J2_step p s t (iterOrder ea er (infNorm7 s)).toNat
            (infNorm7 s) ea er = pr := by
          exact Sum.inl.inj h
        have hcons := step_consume p s t (iterOrder ea er (infNorm7 s)).toNat ea er
          (infNorm7_nonneg s) hstop
        have hmass := step_mass p s t (infNorm7 s) ea er hordpos
        rw [← hpr, hmass, hcons]
      · rw [if_neg hstop] at h
        have hmass := step_mass p s t (infNorm7 s) ea er hordpos
        have := ih _ _ _ h
        rw [this, hmass]
        ring

/-! ### Concrete evaluations used by the witnesses -/

theorem infNorm7_zeroRow : infNorm7 zeroRow = 0 := by
  norm_num [infNorm7, zeroRow]

theorem infNorm7_mRow : infNorm7 mRow = 1 := by
  norm_num [infNorm7, mRow]

theorem genTables_pW_row1 :
    (genTables pW zeroRow 1).1.getD 1 zeroRow = mRow := by
  rw [(genTables_row pW zeroRow (show 0 < 1 by norm_num)).1,
    show genTables pW zeroRow 0 = ([zeroRow], []) from rfl]
  funext i
  rcases i with _ | _ | _ | _ | _ | _ | _ | i
  · simp [xNextRow, uRowNew, uSlot, uAt, zeroRow, mRow, pW]
  · simp [xNextRow, uRowNew, uSlot, uAt, zeroRow, mRow, pW]
  · simp [xNextRow, uRowNew, uSlot, uAt, zeroRow, mRow, pW]
  · simp [xNextRow, uRowNew, uSlot, uAt, zeroRow, mRow, pW]
  · simp [xNextRow, uRowNew, uSlot, uAt, zeroRow, mRow, pW]
  · simp [xNextRow, uRowNew, uSlot, uAt, zeroRow, mRow, pW]
  · simp [xNextRow, uRowNew, sqrtT, zeroRow, mRow, pW]
  · simp [xNextRow, zeroRow, mRow]

theorem genTables_pW_row0 :
    (genTables pW zeroRow 1).1.getD 0 zeroRow = zeroRow := by
  rw [genTables_getD_fst_stable pW zeroRow (Nat.le_refl 0) (Nat.zero_le 1)]
  rfl

theorem rho_m_pW : rho_m pW zeroRow 1 0 1 1 = 1 := by
  rw [rho_m]
  simp only [genTables_pW_row1, genTables_pW_row0, infNorm7_mRow, infNorm7_zeroRow]
  norm_num [Real.one_rpow, Real.rpow_zero]

theorem step_pW_snd :
    (propagate_taylor_J2_step pW zeroRow (1 / 100) 1 0 1 1).2 = 1 / 100 := by
  rw [step_snd, rho_m_pW]
  have he := Real.exp_one_lt_d9
  have hp := Real.exp_pos 1
  rw [if_neg (by norm_num : ¬ (1 / 100 : ℝ) < 0)]
  rw [if_pos]
  rw [abs_of_pos (by positivity), abs_of_pos (by norm_num : (0:ℝ) < 1 / 100)]
  have h2 : Real.exp 1 * Real.exp 1 < 100 := by nlinarith
  exact one_div_lt_one_div_of_lt (by positivity) h2

/-! ### Small order evaluations for witnesses -/

theorem iterOrder_one_one : iterOrder 1 1 0 = 1 := by
  rw [iterOrder, iterEps]
  norm_num [Real.log_one]

theorem iterOrder_half_le : iterOrder (1/2) (1/2) 0 ≤ 3000 := by
  rw [iterOrder, iterEps, ite_self]
  rw [Int.ceil_le]
  rw [show (1/2 : ℝ) = 2⁻¹ by norm_num, Real.log_inv]
  have := Real.log_two_lt_d9
  push_cast
  linarith

/-! ### The claims -/

/-- C1: in every iteration, the target error `eps_m` is the absolute
tolerance `eps_a = 10^log10tolerance` exactly when `eps_r * xm < eps_a`
and the relative tolerance `eps_r = 10^log10rtolerance` otherwise, the
polynomial order is `ceil(-0.5 * ln eps_m + 1)`, and the iteration fails
immediately with `OrderExceeded`, without retrying, exactly when that
order exceeds `max_order` (otherwise it proceeds to the Taylor step). -/
theorem C1_order_selection (p : Params) (lt lr mo : ℤ) (fuel : ℕ) (s : Row) (t : ℝ) :
    iterEps ((10:ℝ)^lt) ((10:ℝ)^lr) (infNorm7 s) =
      (if (10:ℝ)^lr * infNorm7 s < (10:ℝ)^lt then (10:ℝ)^lt else (10:ℝ)^lr) ∧
    iterOrder ((10:ℝ)^lt) ((10:ℝ)^lr) (infNorm7 s) =
      ⌈-0.5 * Real.log (iterEps ((10:ℝ)^lt) ((10:ℝ)^lr) (infNorm7 s)) + 1⌉ ∧
    propLoop p ((10:ℝ)^lt) ((10:ℝ)^lr) mo (fuel + 1) s t =
      (if iterOrder ((10:ℝ)^lt) ((10:ℝ)^lr) (infNorm7 s) > mo then
        Sum.inr (s, PropErr.orderExceeded)
      else
        if |t| ≤ |(propagate_taylor_J2_step p s t
            (iterOrder ((10:ℝ)^lt) ((10:ℝ)^lr) (infNorm7 s)).toNat (infNorm7 s)
            ((10:ℝ)^lt) ((10:ℝ)^lr)).2| then
          Sum.inl (propagate_taylor_J2_step p s t
            (iterOrder ((10:ℝ)^lt) ((10:ℝ)^lr) (infNorm7 s)).toNat (infNorm7 s)
            ((10:ℝ)^lt) ((10:ℝ)^lr))
        else
          propLoop p ((10:ℝ)^lt) ((10:ℝ)^lr) mo fuel
            (propagate_taylor_J2_step p s t
              (iterOrder ((10:ℝ)^lt) ((10:ℝ)^lr) (infNorm7 s)).toNat (infNorm7 s)
              ((10:ℝ)^lt) ((10:ℝ)^lr)).1
            (t - (propagate_taylor_J2_step p s t
              (iterOrder ((10:ℝ)^lt) ((10:ℝ)^lr) (infNorm7 s)).toNat (infNorm7 s)
              ((10:ℝ)^lt) ((10:ℝ)^lr)).2)) :=
  ⟨rfl, rfl, propLoop_succ p ((10:ℝ)^lt) ((10:ℝ)^lr) mo fuel s t⟩

/-- C2: when the order fits the budget, the stepping loop stops exactly
when the step taken covers the remaining duration in magnitude (otherwise
the remaining duration is reduced by the step taken and iteration
continues), and `IterationLimitExceeded` is raised exactly when the
iteration budget runs out with duration still remaining. -/
theorem C2_termination_policy (p : Params) (ea er : ℝ) (mo : ℤ) (fuel : ℕ) (s : Row)
    (t : ℝ) (horder : iterOrder ea er (infNorm7 s) ≤ mo) :
    propLoop p ea er mo (fuel + 1) s t =
      (if |t| ≤ |(propagate_taylor_J2_step p s t (iterOrder ea er (infNorm7 s)).toNat
            (infNorm7 s) ea er).2| then
        Sum.inl (propagate_taylor_J2_step p s t (iterOrder ea er (infNorm7 s)).toNat
          (infNorm7 s) ea er)
      else
        propLoop p ea er mo fuel
          (propagate_taylor_J2_step p s t (iterOrder ea er (infNorm7 s)).toNat
            (infNorm7 s) ea er).1
          (t - (propagate_taylor_J2_step p s t (iterOrder ea er (infNorm7 s)).toNat
            (infNorm7 s) ea er).2)) ∧
    propLoop p ea er mo 0 s t = Sum.inr (s, PropErr.iterLimit) := by
  constructor
  · rw [propLoop_succ, if_neg (not_lt.mpr horder)]
  · exact propLoop_fuel_zero p ea er mo s t

theorem C2_termination_policy_witness :
    propLoop pW 1 1 3000 1 zeroRow 0 = Sum.inl (zeroRow, 0) ∧
    propLoop pW 1 1 3000 0 zeroRow 0 = Sum.inr (zeroRow, PropErr.iterLimit) := by
  have h := C2_termination_policy pW 1 1 3000 0 zeroRow 0
    (by rw [infNorm7_zeroRow, iterOrder_one_one]; norm_num)
  refine ⟨?_, h.2⟩
  rw [show (1:ℕ) = 0 + 1 from rfl, h.1, step_zero]
  norm_num

/-- C3: the candidate step of one Taylor step is `rho_m / e^2` with
`rho_m = min((xm/xm_n)^(1/order), (xm/xm_n1)^(1/(order-1)))` in the
relative-tolerance regime (`eps_a <= eps_r * xm`) and the analogous
expression with numerator `1` in the absolute regime, where `xm_n` and
`xm_n1` are the infinity norms of the two highest-order coefficient rows;
the step actually taken is the candidate clamped to the sign of the
remaining duration, never exceeds it in magnitude, and never reverses
its sign. -/
theorem C3_step_size_formula (p : Params) (s : Row) (h : ℝ) (ord : ℕ) (xm ea er : ℝ)
    (hxm : 0 ≤ xm) :
    rho_m p s ord xm ea er =
      (if ea ≤ er * xm then
        min ((xm / infNorm7 ((genTables p s ord).1.getD ord zeroRow)) ^ ((1:ℝ)/(ord:ℝ)))
          ((xm / infNorm7 ((genTables p s ord).1.getD (ord - 1) zeroRow)) ^
            ((1:ℝ)/((ord:ℝ) - 1)))
      else
        min ((1 / infNorm7 ((genTables p s ord).1.getD ord zeroRow)) ^ ((1:ℝ)/(ord:ℝ)))
          ((1 / infNorm7 ((genTables p s ord).1.getD (ord - 1) zeroRow)) ^
            ((1:ℝ)/((ord:ℝ) - 1)))) ∧
    (propagate_taylor_J2_step p s h ord xm ea er).2 =
      (if |if h < 0 then -(rho_m p s ord xm ea er / (Real.exp 1 * Real.exp 1))
            else rho_m p s ord xm ea er / (Real.exp 1 * Real.exp 1)| > |h|
      then h
      else if h < 0 then -(rho_m p s ord xm ea er / (Real.exp 1 * Real.exp 1))
        else rho_m p s ord xm ea er / (Real.exp 1 * Real.exp 1)) ∧
    |(propagate_taylor_J2_step p s h ord xm ea er).2| ≤ |h| ∧
    0 ≤ (propagate_taylor_J2_step p s h ord xm ea er).2 * h := by
  refine ⟨?_, step_snd p s h ord xm ea er, step_abs_le p s h ord xm ea er,
    step_sign p s h ord ea er hxm⟩
  rw [rho_m]
  by_cases hreg : er * xm < ea
  · rw [if_pos hreg, if_neg (not_le.mpr hreg)]
  · rw [if_neg hreg, if_pos (not_lt.mp hreg)]

theorem C3_step_size_formula_witness :
    |(propagate_taylor_J2_step pW zeroRow 1 2 1 1 1).2| ≤ |(1:ℝ)| ∧
    0 ≤ (propagate_taylor_J2_step pW zeroRow 1 2 1 1 1).2 * 1 :=
  ⟨(C3_step_size_formula pW zeroRow 1 2 1 1 1 (by norm_num)).2.2.1,
   (C3_step_size_formula pW zeroRow 1 2 1 1 1 (by norm_num)).2.2.2⟩

/-- C4: after the generator runs to any order `N >= 1`, the mass Taylor
coefficients are `x[1][6] = -|thrust|/veff` and `x[k][6] = 0` for every
`2 <= k <= N`. -/
theorem C4_mass_coefficients (p : Params) (s : Row) (N : ℕ) (hN : 1 ≤ N) :
    ((genTables p s N).1.getD 1 zeroRow) 6 = -(sqrtT p) / p.veff ∧
    ∀ k, 2 ≤ k → k ≤ N → ((genTables p s N).1.getD k zeroRow) 6 = 0 := by
  constructor
  · rw [genTables_mass_coeff p s (le_refl 1) hN, if_pos rfl]
  · intro k hk2 hkN
    rw [genTables_mass_coeff p s (by omega : 1 ≤ k) hkN, if_neg (by omega)]

theorem C4_mass_coefficients_witness :
    ((genTables pW zeroRow 3).1.getD 1 zeroRow) 6 = -(sqrtT pW) / pW.veff ∧
    ((genTables pW zeroRow 3).1.getD 2 zeroRow) 6 = 0 :=
  ⟨(C4_mass_coefficients pW zeroRow 3 (by norm_num)).1,
   (C4_mass_coefficients pW zeroRow 3 (by norm_num)).2 2 (by norm_num) (by norm_num)⟩

/-- C5: each Taylor step changes the mass by exactly `-|thrust|/veff`
times the step taken (only the order-1 mass coefficient contributes), so
with nonzero thrust and positive `veff` the mass strictly decreases on any
step of positive length, and over a whole successful call with sane
tolerances the mass change is `-|thrust|/veff` times the requested
duration, which is exactly the total stepped time. -/
theorem C5_mass_flow (p : Params) :
    (∀ (s : Row) (h : ℝ) (ord : ℕ) (xm ea er : ℝ), 1 ≤ ord →
      (propagate_taylor_J2_step p s h ord xm ea er).1 6 =
        s 6 - sqrtT p / p.veff * (propagate_taylor_J2_step p s h ord xm ea er).2) ∧
    (∀ (s : Row) (h : ℝ) (ord : ℕ) (xm ea er : ℝ), 1 ≤ ord → 0 < sqrtT p → 0 < p.veff →
      0 < (propagate_taylor_J2_step p s h ord xm ea er).2 →
      (propagate_taylor_J2_step p s h ord xm ea er).1 6 < s 6) ∧
    (∀ (ea er : ℝ) (mo : ℤ) (fuel : ℕ) (s : Row) (t : ℝ) (pr : Row × ℝ),
      0 < ea → ea ≤ 1 → 0 < er → er ≤ 1 →
      propLoop p ea er mo fuel s t = Sum.inl pr →
      pr.1 6 = s 6 - sqrtT p / p.veff * t) := by
  refine ⟨fun s h ord xm ea er hord => step_mass p s h xm ea er hord, ?_, ?_⟩
  · intro s h ord xm ea er hord hT hv hstep
    rw [step_mass p s h xm ea er hord]
    have hc : 0 < sqrtT p / p.veff := div_pos hT hv
    nlinarith
  · intro ea er mo fuel s t pr hA0 hA1 hR0 hR1 hrun
    exact propLoop_mass p hA0 hA1 hR0 hR1 mo fuel s t pr hrun

theorem C5_mass_flow_witness :
    (propagate_taylor_J2_step pW zeroRow (1/100) 1 0 1 1).1 6 =
      zeroRow 6 - sqrtT pW / pW.veff * (propagate_taylor_J2_step pW zeroRow (1/100) 1 0 1 1).2 ∧
    (propagate_taylor_J2_step pW zeroRow (1/100) 1 0 1 1).1 6 < zeroRow 6 ∧
    zeroRow 6 = zeroRow 6 - sqrtT pW / pW.veff * 0 := by
  have hT : sqrtT pW = 1 := by
    rw [sqrtT]
    norm_num [pW]
  refine ⟨(C5_mass_flow pW).1 zeroRow (1/100) 1 0 1 1 (le_refl 1), ?_, ?_⟩
  · exact (C5_mass_flow pW).2.1 zeroRow (1/100) 1 0 1 1 (le_refl 1)
      (by rw [hT]; norm_num) (by norm_num [pW]) (by rw [step_pW_snd]; norm_num)
  · have hrun : propLoop pW (1/2) (1/2) 3000 1 zeroRow 0 = Sum.inl (zeroRow, 0) := by
      rw [show (1:ℕ) = 0 + 1 from rfl]
      exact propLoop_zero_duration pW (1/2) (1/2) 3000 0 zeroRow
        (by rw [infNorm7_zeroRow]; exact iterOrder_half_le)
    exact (C5_mass_flow pW).2.2 (1/2) (1/2) 3000 1 zeroRow 0 (zeroRow, 0)
      (by norm_num) (by norm_num) (by norm_num) (by norm_num) hrun

/-- C6: propagating for a zero requested duration with positive mass,
nonzero position, nonzero exhaust velocity and at least one allowed
iteration terminates without error in a single iteration and leaves the
state exactly unchanged (default tolerances and order cap). -/
theorem C6_zero_duration (p : Params) (s : Row) (mi : ℤ) (hm : 0 < s 6)
    (hr : s 0 ≠ 0 ∨ s 1 ≠ 0 ∨ s 2 ≠ 0) (hv : p.veff ≠ 0) (hmi : 1 ≤ mi) :
    propagate_taylor_J2 p s 0 (-10) (-10) mi 3000 = (s, none) := by
  obtain ⟨f, hf⟩ : ∃ f, mi.toNat = f + 1 := ⟨mi.toNat - 1, by omega⟩
  have hloop := propLoop_zero_duration p ((10:ℝ)^(-10:ℤ)) ((10:ℝ)^(-10:ℤ)) 3000 f s
    (by rw [iterOrder_default]; norm_num)
  unfold propagate_taylor_J2
  rw [hf, hloop]

theorem C6_zero_duration_witness :
    propagate_taylor_J2 pW0 sW 0 (-10) (-10) 100000 3000 = (sW, none) := by
  have h1 : (0:ℝ) < sW 6 := by norm_num [sW]
  have h2 : sW 0 ≠ 0 ∨ sW 1 ≠ 0 ∨ sW 2 ≠ 0 := Or.inl (by norm_num [sW])
  exact C6_zero_duration pW0 sW 100000 h1 h2 (by norm_num [pW0]) (by norm_num)

/-- C7: the generated tables are causal: entries already produced do not
change when the target order grows (the smaller tables are a prefix of the
larger), each auxiliary row of order `n` is a function of the tables of
orders at most `n` only, and so is each state row of order `n + 1`. -/
theorem C7_causality (p : Params) (s : Row) (N M n : ℕ) (hNM : N ≤ M) (hn : n < N) :
    (genTables p s M).1.take (N + 1) = (genTables p s N).1 ∧
    (genTables p s M).2.take N = (genTables p s N).2 ∧
    (genTables p s N).2.getD n zeroRow = uRowNew p (genTables p s n) ∧
    (genTables p s N).1.getD (n + 1) zeroRow = xNextRow p (genTables p s n) := by
  refine ⟨(genTables_take p s N M hNM).1, (genTables_take p s N M hNM).2, ?_, ?_⟩
  · exact (genTables_row p s hn).2
  · exact (genTables_row p s hn).1

theorem C7_causality_witness :
    (genTables pW zeroRow 3).1.take 3 = (genTables pW zeroRow 2).1 ∧
    (genTables pW zeroRow 3).2.take 2 = (genTables pW zeroRow 2).2 ∧
    (genTables pW zeroRow 2).2.getD 1 zeroRow = uRowNew pW (genTables pW zeroRow 1) ∧
    (genTables pW zeroRow 2).1.getD 2 zeroRow = xNextRow pW (genTables pW zeroRow 1) :=
  C7_causality pW zeroRow 2 3 1 (by norm_num) (by norm_num)

/-- C8 counterexample: with state norm `10^-3` and relative exponent `-5`,
tightening the absolute exponent from `-7` to `-9` flips the regime test
and strictly lowers the selected order (from 10 to 7), contradicting the
claim that tightening either exponent never decreases the order. -/
theorem C8_counterexample :
    iterOrder ((10:ℝ)^(-9:ℤ)) ((10:ℝ)^(-5:ℤ)) (1/1000) <
      iterOrder ((10:ℝ)^(-7:ℤ)) ((10:ℝ)^(-5:ℤ)) (1/1000) := by
  have hL1 := log_ten_lt
  have hL2 := log_ten_gt
  have h7 : iterOrder ((10:ℝ)^(-7:ℤ)) ((10:ℝ)^(-5:ℤ)) (1/1000) = 10 := by
    rw [iterOrder, iterEps, if_pos (by norm_num), log_zpow_ten]
    rw [Int.ceil_eq_iff]
    constructor
    · push_cast; nlinarith
    · push_cast; nlinarith
  have h9 : iterOrder ((10:ℝ)^(-9:ℤ)) ((10:ℝ)^(-5:ℤ)) (1/1000) = 7 := by
    rw [iterOrder, iterEps, if_neg (by norm_num), log_zpow_ten]
    rw [Int.ceil_eq_iff]
    constructor
    · push_cast; nlinarith
    · push_cast; nlinarith
  rw [h7, h9]
  norm_num

/-- C8 (amended): for a fixed state norm, tightening either tolerance
exponent never decreases the selected order, provided the regime test
`eps_r * xm < eps_a` has the same outcome before and after the change. -/
theorem C8_amended_monotonicity (ta ta' tr tr' : ℤ) (xm : ℝ) (hta : ta' ≤ ta)
    (htr : tr' ≤ tr)
    (hreg : ((10:ℝ)^tr' * xm < (10:ℝ)^ta') ↔ ((10:ℝ)^tr * xm < (10:ℝ)^ta)) :
    iterOrder ((10:ℝ)^ta) ((10:ℝ)^tr) xm ≤ iterOrder ((10:ℝ)^ta') ((10:ℝ)^tr') xm := by
  have hpos : 0 < iterEps ((10:ℝ)^ta') ((10:ℝ)^tr') xm := by
    rw [iterEps]
    split
    · exact zpow_pos (by norm_num) _
    · exact zpow_pos (by norm_num) _
  have hle : iterEps ((10:ℝ)^ta') ((10:ℝ)^tr') xm ≤ iterEps ((10:ℝ)^ta) ((10:ℝ)^tr) xm := by
    rw [iterEps, iterEps]
    by_cases hc : (10:ℝ)^tr * xm < (10:ℝ)^ta
    · rw [if_pos hc, if_pos (hreg.mpr hc)]
      exact zpow_le_zpow_right₀ (by norm_num) hta
    · rw [if_neg hc, if_neg (fun hcon => hc (hreg.mp hcon))]
      exact zpow_le_zpow_right₀ (by norm_num) htr
  have hlog := Real.log_le_log hpos hle
  rw [iterOrder, iterOrder]
  exact Int.ceil_mono (by linarith)

theorem C8_amended_monotonicity_witness :
    iterOrder ((10:ℝ)^(-7:ℤ)) ((10:ℝ)^(-5:ℤ)) 1 ≤
      iterOrder ((10:ℝ)^(-8:ℤ)) ((10:ℝ)^(-5:ℤ)) 1 :=
  C8_amended_monotonicity (-7) (-8) (-5) (-5) 1 (by norm_num) (le_refl _) (by norm_num)

/-- C9: the loop's success value carries the last step length, but the
entry point exposes only the mutated state (and the error flag): the step
length is dropped from what the caller receives. -/
theorem C9_last_step_dropped (p : Params) (s : Row) (t : ℝ) (lt lr mi mo : ℤ)
    (pr : Row × ℝ)
    (hs : propLoop p ((10:ℝ)^lt) ((10:ℝ)^lr) mo mi.toNat s t = Sum.inl pr) :
    propagate_taylor_J2 p s t lt lr mi mo = (pr.1, none) := by
  unfold propagate_taylor_J2
  rw [hs]

theorem C9_last_step_dropped_witness :
    propagate_taylor_J2 pW0 sW 0 (-10) (-10) 1 3000 = (sW, none) := by
  have hs : propLoop pW0 ((10:ℝ)^(-10:ℤ)) ((10:ℝ)^(-10:ℤ)) 3000 (1:ℤ).toNat sW 0 =
      Sum.inl (sW, 0) := by
    rw [show (1:ℤ).toNat = 0 + 1 from rfl]
    exact propLoop_zero_duration pW0 _ _ 3000 0 sW (by rw [iterOrder_default]; norm_num)
  exact C9_last_step_dropped pW0 sW 0 (-10) (-10) 1 3000 (sW, 0) hs

/-- C10: an error raised before any step leaves the caller's state
untouched: a non-positive iteration budget always raises
`IterationLimitExceeded` with the state unchanged (even for zero
duration), and an order budget violated on the first iteration raises
`OrderExceeded` with the state unchanged. -/
theorem C10_error_state_untouched (p : Params) (s : Row) (t : ℝ) (lt lr mi mo : ℤ) :
    (mi ≤ 0 → propagate_taylor_J2 p s t lt lr mi mo = (s, some PropErr.iterLimit)) ∧
    (1 ≤ mi → iterOrder ((10:ℝ)^lt) ((10:ℝ)^lr) (infNorm7 s) > mo →
      propagate_taylor_J2 p s t lt lr mi mo = (s, some PropErr.orderExceeded)) := by
  constructor
  · intro hmi
    unfold propagate_taylor_J2
    rw [show mi.toNat = 0 by omega, propLoop_fuel_zero]
  · intro hmi hord
    obtain ⟨f, hf⟩ : ∃ f, mi.toNat = f + 1 := ⟨mi.toNat - 1, by omega⟩
    unfold propagate_taylor_J2
    rw [hf, propLoop_succ, if_pos hord]

theorem C10_error_state_untouched_witness :
    propagate_taylor_J2 pW0 sW 5 (-10) (-10) 0 3000 = (sW, some PropErr.iterLimit) ∧
    propagate_taylor_J2 pW0 sW 5 (-10) (-10) 7 2 = (sW, some PropErr.orderExceeded) :=
  ⟨(C10_error_state_untouched pW0 sW 5 (-10) (-10) 0 3000).1 (by norm_num),
   (C10_error_state_untouched pW0 sW 5 (-10) (-10) 7 2).2 (by norm_num)
     (by rw [iterOrder_default]; norm_num)⟩

end KepToolbox
